import Mathlib

/-!
Verification development for the `algo-trader` backtest engine
(`src/python/backtest/engine.py` and `src/python/backtest/metrics.py`).

The engine is embedded shallowly: prices, quantities and cash are `ℚ`,
timestamps are `ℕ`, the `positions` dict is an insertion-ordered
association list, and `_execute_order` is decomposed into the same
stages as the Python source (limit touch check, slippage, cash/short
check, position update, trade recording).  Paths on which the Python
code would raise an exception (a limit order carrying no limit price)
are modelled with `Option`.
-/

namespace AlgoTrader

/-- `Side` enum from engine.py (`BUY = 1`, `SELL = -1`). -/
inductive Side where
  | buy
  | sell
  deriving DecidableEq, BEq

/-- Order type tag.  The source compares the string `order_type` against
`'MARKET'` and treats every other value as a limit order, so the two
constructors cover the whole branching behaviour of `_execute_order`. -/
inductive OrderType where
  | market
  | limit
  deriving DecidableEq

/-- `Order` dataclass from engine.py. -/
structure Order where
  symbol : String
  side : Side
  quantity : ℚ
  order_type : OrderType
  limit_price : Option ℚ
  timestamp : Option ℕ
  filled : Bool
  fill_price : Option ℚ
  fill_timestamp : Option ℕ
  deriving DecidableEq

/-- `Position` dataclass from engine.py. -/
structure Position where
  symbol : String
  quantity : ℚ
  avg_price : ℚ
  unrealized_pnl : ℚ
  realized_pnl : ℚ
  entry_time : Option ℕ
  deriving DecidableEq

/-- `Trade` dataclass from engine.py. -/
structure Trade where
  symbol : String
  entry_time : ℕ
  exit_time : ℕ
  side : Side
  quantity : ℚ
  entry_price : ℚ
  exit_price : ℚ
  pnl : ℚ
  return_pct : ℚ
  deriving DecidableEq

/-- One element of `state.equity_curve` (engine.py `run`, lines 287-291). -/
structure EquityPoint where
  timestamp : ℕ
  equity : ℚ
  cash : ℚ
  deriving DecidableEq

/-- `BacktestConfig` dataclass from engine.py. -/
structure BacktestConfig where
  initial_capital : ℚ
  commission : ℚ
  slippage : ℚ
  margin_requirement : ℚ
  max_position_size : ℚ
  allow_shorting : Bool
  deriving DecidableEq

/-- `BacktestState` dataclass from engine.py. -/
structure BacktestState where
  timestamp : Option ℕ
  cash : ℚ
  positions : List (String × Position)
  orders : List Order
  trades : List Trade
  equity_curve : List EquityPoint
  deriving DecidableEq

/-- One OHLCV bar (a row of the loaded dataframe).  The `open` column is
named `opn` because `open` is a Lean keyword; no engine code reads it. -/
structure Bar where
  timestamp : ℕ
  opn : ℚ
  high : ℚ
  low : ℚ
  close : ℚ
  volume : ℚ
  symbol : String
  deriving DecidableEq

/-- `Position(symbol=symbol)`: the default position `get_position` inserts. -/
def emptyPosition (sym : String) : Position :=
  { symbol := sym, quantity := 0, avg_price := 0, unrealized_pnl := 0,
    realized_pnl := 0, entry_time := none }

/-- Lookup in the positions dict (`symbol in self.state.positions`). -/
def posLookup : List (String × Position) → String → Option Position
  | [], _ => none
  | (k, p) :: rest, sym => if k = sym then some p else posLookup rest sym

/-- Read accessor part of `get_position`: the stored position, or the
default `Position(symbol)` if the symbol has never been referenced. -/
def getPos (ps : List (String × Position)) (sym : String) : Position :=
  (posLookup ps sym).getD (emptyPosition sym)

/-- `symbol in self.state.positions`. -/
def hasPos (ps : List (String × Position)) (sym : String) : Bool :=
  (posLookup ps sym).isSome

/-- Mutating part of `get_position`: insert the default position if the
symbol is absent (Python dicts append new keys in insertion order). -/
def ensurePos (ps : List (String × Position)) (sym : String) :
    List (String × Position) :=
  if hasPos ps sym then ps else ps ++ [(sym, emptyPosition sym)]

/-- In-place mutation of the position stored under `sym`. -/
def setPos : List (String × Position) → String → Position →
    List (String × Position)
  | [], _, _ => []
  | (k, p) :: rest, sym, p' =>
    if k = sym then (sym, p') :: setPos rest sym p'
    else (k, p) :: setPos rest sym p'

/-- `slippage_factor` (engine.py line 177). -/
def slippageFactor (cfg : BacktestConfig) (side : Side) : ℚ :=
  if side = Side.buy then 1 + cfg.slippage else 1 - cfg.slippage

/-- Buy branch of the position update (engine.py lines 204-211). -/
def buyUpdate (o : Order) (fp : ℚ) (ts : ℕ) (pos : Position) : Position :=
  let newQty := pos.quantity + o.quantity
  { pos with
    avg_price :=
      if newQty ≠ 0 then
        (pos.quantity * pos.avg_price + o.quantity * fp) / newQty
      else pos.avg_price,
    entry_time := if pos.quantity = 0 then some ts else pos.entry_time,
    quantity := newQty }

/-- Sell branch of the position update (engine.py lines 212-236): realize
P&L and emit a `Trade` when the pre-fill quantity is positive, then reduce
the quantity and reset the position if it lands exactly on zero.  Returns
the updated position and the list of trades appended (empty or singleton). -/
def sellUpdate (o : Order) (fp : ℚ) (ts : ℕ) (pos : Position) :
    Position × List Trade :=
  let realized : Position × List Trade :=
    if 0 < pos.quantity then
      let sellQty := min o.quantity pos.quantity
      let pnl := sellQty * (fp - pos.avg_price)
      ({ pos with realized_pnl := pos.realized_pnl + pnl },
       [{ symbol := o.symbol,
          entry_time := pos.entry_time.getD ts,
          exit_time := ts,
          side := Side.buy,
          quantity := sellQty,
          entry_price := pos.avg_price,
          exit_price := fp,
          pnl := pnl,
          return_pct :=
            if 0 < pos.avg_price then pnl / (sellQty * pos.avg_price) else 0 }])
    else (pos, [])
  let newQty := pos.quantity - o.quantity
  if newQty = 0 then
    ({ realized.1 with quantity := 0, avg_price := 0, entry_time := none },
     realized.2)
  else
    ({ realized.1 with quantity := newQty }, realized.2)

/-- Tail of `_execute_order` after all checks passed (engine.py lines
199-244): fetch-or-create the position, apply the side-specific update,
append any realized trade, and mark the order as filled. -/
def finishFill (o : Order) (bar : Bar) (fp : ℚ) (st : BacktestState) :
    Bool × Order × BacktestState :=
  let ps := ensurePos st.positions o.symbol
  let pos := getPos ps o.symbol
  let upd : Position × List Trade :=
    match o.side with
    | Side.buy => (buyUpdate o fp bar.timestamp pos, [])
    | Side.sell => sellUpdate o fp bar.timestamp pos
  (true,
   { o with filled := true, fill_price := some fp,
            fill_timestamp := some bar.timestamp },
   { st with positions := setPos ps o.symbol upd.1,
             trades := st.trades ++ upd.2 })

/-- `_execute_order` from the slippage application onward (engine.py lines
176-244), given the base price already selected: apply slippage, run the
cash / shorting checks, then update cash and the position. -/
def executeAt (cfg : BacktestConfig) (o : Order) (bar : Bar) (base : ℚ)
    (st : BacktestState) : Bool × Order × BacktestState :=
  let fp := base * slippageFactor cfg o.side
  let tv := o.quantity * fp
  let comm := tv * cfg.commission
  match o.side with
  | Side.buy =>
    if st.cash < tv + comm then (false, o, st)
    else finishFill o bar fp { st with cash := st.cash - (tv + comm) }
  | Side.sell =>
    let ps := ensurePos st.positions o.symbol
    let pos := getPos ps o.symbol
    if cfg.allow_shorting = false ∧ pos.quantity < o.quantity then
      (false, o, { st with positions := ps })
    else
      finishFill o bar fp
        { st with cash := st.cash + (tv - comm), positions := ps }

/-- `BacktestEngine._execute_order` (engine.py lines 161-244).  `none`
models the `TypeError` Python raises when a limit order carries no limit
price; `some (filled, order, state)` is the normal return, carrying the
(possibly mutated) order and engine state. -/
def executeOrder (cfg : BacktestConfig) (o : Order) (bar : Bar)
    (st : BacktestState) : Option (Bool × Order × BacktestState) :=
  match o.order_type with
  | OrderType.market => some (executeAt cfg o bar bar.close st)
  | OrderType.limit =>
    match o.limit_price with
    | none => none
    | some lp =>
      if o.side = Side.buy ∧ lp < bar.low then some (false, o, st)
      else if o.side = Side.sell ∧ bar.high < lp then some (false, o, st)
      else some (executeAt cfg o bar lp st)

/-- `BacktestEngine._update_positions` (engine.py lines 246-251): mark
every position whose quantity is nonzero to the bar close. -/
def updatePositions (bar : Bar) (st : BacktestState) : BacktestState :=
  { st with positions := st.positions.map (fun kv =>
      if kv.2.quantity ≠ 0 then
        (kv.1, { kv.2 with
          unrealized_pnl := kv.2.quantity * (bar.close - kv.2.avg_price) })
      else kv) }

/-- `BacktestEngine.get_equity` (engine.py lines 149-154). -/
def getEquity (st : BacktestState) : ℚ :=
  st.cash +
    (st.positions.map
      (fun kv => kv.2.quantity * kv.2.avg_price + kv.2.unrealized_pnl)).sum

/-- The required-column list of `load_data` (engine.py line 118). -/
def requiredCols : List String :=
  ["timestamp", "open", "high", "low", "close", "volume"]

/-- `BacktestEngine.load_data` column validation (engine.py lines 112-124),
modelled on the loaded frame's column list. -/
def loadData (cols : List String) : Except String Unit :=
  let missing := requiredCols.filter (fun c => !(cols.contains c))
  if missing.isEmpty then Except.ok () else Except.error "Missing required columns"

/-- `true` iff `load_data` accepts a frame with the given columns. -/
def loadOk (cols : List String) : Bool :=
  match loadData cols with
  | Except.ok _ => true
  | Except.error _ => false

/-- A strategy callback: bar index, bar, and a read view of the engine
state, returning the orders to submit (engine.py `set_strategy`). -/
def Strategy : Type :=
  ℕ → Bar → BacktestState → List Order

/-- The per-bar order submission loop (engine.py lines 279-283): stamp
each order with the bar timestamp, execute it, and append it to the
executed-order log only when the fill succeeded. -/
def execLoop (cfg : BacktestConfig) (bar : Bar) :
    List Order → BacktestState → Option BacktestState
  | [], st => some st
  | o :: rest, st =>
    match executeOrder cfg { o with timestamp := some bar.timestamp } bar st with
    | none => none
    | some (true, o', st') =>
      execLoop cfg bar rest { st' with orders := st'.orders ++ [o'] }
    | some (false, _, st') => execLoop cfg bar rest st'

/-- One iteration of the bar loop (engine.py lines 268-291): set the
state timestamp, mark positions to market, call the strategy, execute the
returned orders, and append an equity point. -/
def processBar (cfg : BacktestConfig) (strat : Strategy) (idx : ℕ) (bar : Bar)
    (st : BacktestState) : Option BacktestState :=
  let st1 := updatePositions bar { st with timestamp := some bar.timestamp }
  let orders := strat idx bar st1
  (execLoop cfg bar orders st1).map (fun st2 =>
    { st2 with equity_curve := st2.equity_curve ++
        [{ timestamp := bar.timestamp, equity := getEquity st2,
           cash := st2.cash }] })

/-- The bar loop from a given index and state. -/
def runFrom (cfg : BacktestConfig) (strat : Strategy) :
    ℕ → List Bar → BacktestState → Option BacktestState
  | _, [], st => some st
  | idx, b :: bs, st =>
    match processBar cfg strat idx b st with
    | none => none
    | some st' => runFrom cfg strat (idx + 1) bs st'

/-- `BacktestEngine._reset` (engine.py lines 102-110). -/
def resetState (cfg : BacktestConfig) : BacktestState :=
  { timestamp := none, cash := cfg.initial_capital, positions := [],
    orders := [], trades := [], equity_curve := [] }

/-- `BacktestEngine.run` (engine.py lines 253-291) up to the final state:
the pre-call engine state `st` is discarded by the initial `_reset`. -/
def runEngine (cfg : BacktestConfig) (strat : Strategy) (bars : List Bar)
    (_st : BacktestState) : Option BacktestState :=
  runFrom cfg strat 0 bars (resetState cfg)

/-- A sequence of order executions in which every fill must succeed
(`some (os, st')` returns the filled orders and the final state). -/
def execAll (cfg : BacktestConfig) :
    List (Order × Bar) → BacktestState → Option (List Order × BacktestState)
  | [], st => some ([], st)
  | (o, b) :: rest, st =>
    match executeOrder cfg o b st with
    | some (true, o', st') =>
      (execAll cfg rest st').map (fun r => (o' :: r.1, r.2))
    | _ => none

/-- A sequence of order executions in which rejected orders are simply
dropped, exactly as the engine loop does. -/
def execSeq (cfg : BacktestConfig) :
    List (Order × Bar) → BacktestState → Option BacktestState
  | [], st => some st
  | (o, b) :: rest, st =>
    match executeOrder cfg o b st with
    | none => none
    | some r => execSeq cfg rest r.2.2

/-- Net cash effect of a filled order, in terms of its recorded fill
price (engine.py lines 180-197). -/
def cashDelta (cfg : BacktestConfig) (o : Order) : ℚ :=
  match o.fill_price with
  | some fp =>
    let tv := o.quantity * fp
    let comm := tv * cfg.commission
    if o.side = Side.buy then -(tv + comm) else tv - comm
  | none => 0

/-! ## Metrics (metrics.py, `BacktestMetrics.from_equity_curve`) -/

/-- `np.mean`. -/
noncomputable def npMean (xs : List ℝ) : ℝ := xs.sum / xs.length

/-- `np.std` (population standard deviation). -/
noncomputable def npStd (xs : List ℝ) : ℝ :=
  Real.sqrt (npMean (xs.map (fun x => (x - npMean xs) ^ 2)))

/-- `returns = np.diff(eq) / eq[:-1]` (metrics.py line 73). -/
noncomputable def returnsOf (eq : List ℝ) : List ℝ :=
  List.zipWith (fun a b => (b - a) / a) eq eq.tail

/-- The `volatility` field:
`np.std(returns) * np.sqrt(periods_per_year)` (metrics.py line 85). -/
noncomputable def volatilityOf (ppy : ℕ) (eq : List ℝ) : ℝ :=
  npStd (returnsOf eq) * Real.sqrt ppy

/-- The `sharpe_ratio` field produced by `from_equity_curve` (metrics.py
lines 66-112): every metric field starts at 0, the whole computation is
skipped when the curve has fewer than two points, and the ratio is only
assigned under the `volatility > 0` guard, as
`mean(returns - risk_free_rate / periods_per_year) * periods_per_year /
volatility`. -/
noncomputable def sharpeOf (rf : ℝ) (ppy : ℕ) (eq : List ℝ) : ℝ :=
  if eq.length < 2 then 0
  else if 0 < volatilityOf ppy eq then
    npMean ((returnsOf eq).map (fun r => r - rf / (ppy : ℝ))) * (ppy : ℝ) /
      volatilityOf ppy eq
  else 0

/-! ## Concrete scenario fixtures -/

/-- Frictionless configuration (no commission, no slippage) used by the
concrete scenarios, with shorting allowed as in the default config. -/
def cfgZ : BacktestConfig :=
  { initial_capital := 100000, commission := 0, slippage := 0,
    margin_requirement := 1, max_position_size := 1/10, allow_shorting := true }

/-- A flat bar at price `px`. -/
def mkBar (ts : ℕ) (px : ℚ) : Bar :=
  { timestamp := ts, opn := px, high := px, low := px, close := px,
    volume := 1000, symbol := "A" }

/-- A fresh market order on symbol `"A"`. -/
def mkOrder (s : Side) (q : ℚ) : Order :=
  { symbol := "A", side := s, quantity := q, order_type := OrderType.market,
    limit_price := none, timestamp := none, filled := false,
    fill_price := none, fill_timestamp := none }

/-- Strategy that buys 10 shares on bar 0 and sells them on bar 1. -/
def c1Strat : Strategy := fun idx _ _ =>
  if idx = 0 then [mkOrder Side.buy 10]
  else if idx = 1 then [mkOrder Side.sell 10]
  else []

/-- Final engine state of a buy-then-sell-then-hold run over closes
100, 110, 110. -/
def c1Final : BacktestState :=
  (runEngine cfgZ c1Strat [mkBar 0 100, mkBar 1 110, mkBar 2 110]
    (resetState cfgZ)).getD (resetState cfgZ)

/-- Buy 5 long, sell 10 (overshoot into a short of 5 with the stale
long average cost 100), then buy 5 to cover the short exactly to zero. -/
def s4Seq : List (Order × Bar) :=
  [(mkOrder Side.buy 5, mkBar 0 100), (mkOrder Side.sell 10, mkBar 1 100),
   (mkOrder Side.buy 5, mkBar 2 60)]

/-- Result of executing `s4Seq` from a fresh state (all fills succeed). -/
def s4Run : List Order × BacktestState :=
  (execAll cfgZ s4Seq (resetState cfgZ)).getD ([], resetState cfgZ)

/-- Buy 5 at 100, sell 10 at 100 (flip to short 5 with avg 100), buy 10
at 40 (back to long 5 with average cost −20), then sell the 5 at 50. -/
def s5Seq : List (Order × Bar) :=
  [(mkOrder Side.buy 5, mkBar 0 100), (mkOrder Side.sell 10, mkBar 1 100),
   (mkOrder Side.buy 10, mkBar 2 40), (mkOrder Side.sell 5, mkBar 3 50)]

/-- Result of executing `s5Seq` from a fresh state (all fills succeed). -/
def s5Run : List Order × BacktestState :=
  (execAll cfgZ s5Seq (resetState cfgZ)).getD ([], resetState cfgZ)

/-- The second trade record produced by `s5Seq`. -/
def s5Trade : Trade :=
  (s5Run.2.trades.get? 1).getD
    { symbol := "", entry_time := 0, exit_time := 0, side := Side.buy,
      quantity := 0, entry_price := 0, exit_price := 0, pnl := 0,
      return_pct := 0 }

/-- Single buy fill used by the cash-update witness. -/
def w2res : Bool × Order × BacktestState :=
  (executeOrder cfgZ (mkOrder Side.buy 10) (mkBar 0 100)
    (resetState cfgZ)).getD (false, mkOrder Side.buy 10, resetState cfgZ)

/-- Buy-then-sell fill sequence used by the cash-update witness. -/
def w2seq : List (Order × Bar) :=
  [(mkOrder Side.buy 10, mkBar 0 100), (mkOrder Side.sell 10, mkBar 1 110)]

/-- Result of executing `w2seq` from a fresh state. -/
def w2all : List Order × BacktestState :=
  (execAll cfgZ w2seq (resetState cfgZ)).getD ([], resetState cfgZ)

/-- Two-buy fill sequence used by the average-cost witness. -/
def w3seq : List (Order × Bar) :=
  [(mkOrder Side.buy 10, mkBar 0 100), (mkOrder Side.buy 30, mkBar 1 110)]

/-- Result of executing `w3seq` from a fresh state. -/
def w3all : List Order × BacktestState :=
  (execAll cfgZ w3seq (resetState cfgZ)).getD ([], resetState cfgZ)

/-- Single buy fill used by the average-cost witness. -/
def w3res : Bool × Order × BacktestState :=
  (executeOrder cfgZ (mkOrder Side.buy 10) (mkBar 0 100)
    (resetState cfgZ)).getD (false, mkOrder Side.buy 10, resetState cfgZ)

/-- State holding 10 shares at average cost 100 (used by the sell-trade
witness). -/
def w5pre : BacktestState :=
  ((executeOrder cfgZ (mkOrder Side.buy 10) (mkBar 0 100)
    (resetState cfgZ)).getD (false, mkOrder Side.buy 10, resetState cfgZ)).2.2

/-- Partial sell of 4 of the 10 shares at 110. -/
def w5res : Bool × Order × BacktestState :=
  (executeOrder cfgZ (mkOrder Side.sell 4) (mkBar 1 110) w5pre).getD
    (false, mkOrder Side.sell 4, w5pre)

/-- Limit buy order at 50 used by the limit-rule witness. -/
def w8o : Order :=
  { symbol := "A", side := Side.buy, quantity := 10,
    order_type := OrderType.limit, limit_price := some 50, timestamp := none,
    filled := false, fill_price := none, fill_timestamp := none }

/-- Bar whose low (60) stays above the 50 limit. -/
def w8bar : Bar := mkBar 0 60

/-! ## Position-map lemmas -/

lemma posLookup_append_self (ps : List (String × Position)) (sym : String)
    (p : Position) (h : posLookup ps sym = none) :
    posLookup (ps ++ [(sym, p)]) sym = some p := by
  induction ps with
  | nil => simp [posLookup]
  | cons kv rest ih =>
    obtain ⟨k, q⟩ := kv
    by_cases hk : k = sym
    · simp [posLookup, hk] at h
    · simp only [List.cons_append, posLookup, hk, if_false] at h ⊢
      exact ih h

lemma getPos_ensurePos (ps : List (String × Position)) (sym : String) :
    getPos (ensurePos ps sym) sym = getPos ps sym := by
  unfold ensurePos hasPos
  cases h : posLookup ps sym with
  | some p => simp [h, getPos]
  | none => simp [h, getPos, posLookup_append_self ps sym _ h]

lemma hasPos_ensurePos (ps : List (String × Position)) (sym : String) :
    hasPos (ensurePos ps sym) sym = true := by
  unfold ensurePos
  cases h : posLookup ps sym with
  | some p => simp [hasPos, h]
  | none => simp [hasPos, h, posLookup_append_self ps sym _ h]

lemma ensurePos_of_hasPos (ps : List (String × Position)) (sym : String)
    (h : hasPos ps sym = true) : ensurePos ps sym = ps := by
  unfold ensurePos
  rw [h]
  simp

lemma ensurePos_idem (ps : List (String × Position)) (sym : String) :
    ensurePos (ensurePos ps sym) sym = ensurePos ps sym :=
  ensurePos_of_hasPos _ _ (hasPos_ensurePos ps sym)

lemma getPos_setPos (ps : List (String × Position)) (sym : String)
    (p : Position) (h : hasPos ps sym = true) :
    getPos (setPos ps sym p) sym = p := by
  induction ps with
  | nil => simp [hasPos, posLookup] at h
  | cons kv rest ih =>
    obtain ⟨k, q⟩ := kv
    by_cases hk : k = sym
    · simp [setPos, hk, getPos, posLookup]
    · simp only [hasPos, posLookup, hk, if_false] at h
      simp only [setPos, hk, if_false, getPos, posLookup]
      exact ih h

/-! ## Characterization of successful fills -/

/-- What `_execute_order` does on any successful fill, for both sides:
the order is stamped as filled at some price `fp`, cash moves by exactly
the transaction value plus/minus commission, and the position/trade list
change is the corresponding side-specific update. -/
lemma executeAt_success (cfg : BacktestConfig) (o : Order) (bar : Bar)
    (base : ℚ) (st : BacktestState) (o' : Order) (st' : BacktestState)
    (h : executeAt cfg o bar base st = (true, o', st')) :
    ∃ fp, fp = base * slippageFactor cfg o.side ∧
      o' = { o with filled := true, fill_price := some fp,
                    fill_timestamp := some bar.timestamp } ∧
      (o.side = Side.buy →
        st'.cash = st.cash - (o.quantity * fp + o.quantity * fp * cfg.commission) ∧
        st'.trades = st.trades ∧
        getPos st'.positions o.symbol =
          buyUpdate o fp bar.timestamp (getPos st.positions o.symbol)) ∧
      (o.side = Side.sell →
        st'.cash = st.cash + (o.quantity * fp - o.quantity * fp * cfg.commission) ∧
        st'.trades = st.trades ++
          (sellUpdate o fp bar.timestamp (getPos st.positions o.symbol)).2 ∧
        getPos st'.positions o.symbol =
          (sellUpdate o fp bar.timestamp (getPos st.positions o.symbol)).1) := by
  obtain ⟨sym, side, qty, otype, lp, ots, ofl, ofp, ofts⟩ := o
  cases side with
  | buy =>
    refine ⟨base * slippageFactor cfg Side.buy, rfl, ?_⟩
    simp only [executeAt] at h
    split at h
    · simp at h
    · simp only [finishFill, Prod.mk.injEq, true_and] at h
      obtain ⟨ho, hst⟩ := h
      subst ho
      subst hst
      refine ⟨rfl, ?_, ?_⟩
      · intro _
        refine ⟨rfl, by simp, ?_⟩
        show getPos (setPos (ensurePos st.positions sym) sym _) sym = _
        rw [getPos_setPos _ _ _ (hasPos_ensurePos _ _)]
        simp only [getPos_ensurePos]
      · intro hs
        simp at hs
  | sell =>
    refine ⟨base * slippageFactor cfg Side.sell, rfl, ?_⟩
    simp only [executeAt] at h
    split at h
    · simp at h
    · simp only [finishFill, Prod.mk.injEq, true_and] at h
      obtain ⟨ho, hst⟩ := h
      subst ho
      subst hst
      refine ⟨rfl, ?_, ?_⟩
      · intro hs
        simp at hs
      · intro _
        refine ⟨rfl, ?_, ?_⟩
        · show st.trades ++ _ = st.trades ++ _
          simp only [getPos_ensurePos]
        · show getPos (setPos (ensurePos (ensurePos st.positions sym) sym) sym _) sym = _
          rw [getPos_setPos _ _ _ (hasPos_ensurePos _ _)]
          simp only [getPos_ensurePos]

lemma executeOrder_success (cfg : BacktestConfig) (o : Order) (bar : Bar)
    (st : BacktestState) (o' : Order) (st' : BacktestState)
    (h : executeOrder cfg o bar st = some (true, o', st')) :
    ∃ base, executeAt cfg o bar base st = (true, o', st') := by
  cases hot : o.order_type with
  | market =>
    simp only [executeOrder, hot] at h
    exact ⟨bar.close, Option.some.inj h⟩
  | limit =>
    simp only [executeOrder, hot] at h
    cases hlp : o.limit_price with
    | none => simp [hlp] at h
    | some lp =>
      simp only [hlp] at h
      split at h
      · simp at h
      · split at h
        · simp at h
        · exact ⟨lp, Option.some.inj h⟩

/-- Full characterization of a successful `_execute_order` call, with the
fill price read back from the returned order. -/
lemma execSuccess (cfg : BacktestConfig) (o : Order) (bar : Bar)
    (st : BacktestState) (o' : Order) (st' : BacktestState)
    (h : executeOrder cfg o bar st = some (true, o', st')) :
    ∃ fp,
      o' = { o with filled := true, fill_price := some fp,
                    fill_timestamp := some bar.timestamp } ∧
      (o.side = Side.buy →
        st'.cash = st.cash - (o.quantity * fp + o.quantity * fp * cfg.commission) ∧
        st'.trades = st.trades ∧
        getPos st'.positions o.symbol =
          buyUpdate o fp bar.timestamp (getPos st.positions o.symbol)) ∧
      (o.side = Side.sell →
        st'.cash = st.cash + (o.quantity * fp - o.quantity * fp * cfg.commission) ∧
        st'.trades = st.trades ++
          (sellUpdate o fp bar.timestamp (getPos st.positions o.symbol)).2 ∧
        getPos st'.positions o.symbol =
          (sellUpdate o fp bar.timestamp (getPos st.positions o.symbol)).1) := by
  obtain ⟨base, hb⟩ := executeOrder_success cfg o bar st o' st' h
  obtain ⟨fp, -, h1, h2, h3⟩ := executeAt_success cfg o bar base st o' st' hb
  exact ⟨fp, h1, h2, h3⟩

/-- A rejected fill leaves the order, cash, trade log and executed-order
log untouched (only `get_position` may have inserted a fresh empty
position on the sell path). -/
lemma executeAt_failure (cfg : BacktestConfig) (o : Order) (bar : Bar)
    (base : ℚ) (st : BacktestState) (o2 : Order) (st2 : BacktestState)
    (h : executeAt cfg o bar base st = (false, o2, st2)) :
    o2 = o ∧ st2.cash = st.cash ∧ st2.trades = st.trades ∧
      st2.orders = st.orders := by
  obtain ⟨sym, side, qty, otype, lp, ots, ofl, ofp, ofts⟩ := o
  cases side with
  | buy =>
    simp only [executeAt] at h
    split at h
    · simp only [Prod.mk.injEq, true_and] at h
      obtain ⟨ho, hst⟩ := h
      subst ho
      subst hst
      exact ⟨rfl, rfl, rfl, rfl⟩
    · simp [finishFill] at h
  | sell =>
    simp only [executeAt] at h
    split at h
    · simp only [Prod.mk.injEq, true_and] at h
      obtain ⟨ho, hst⟩ := h
      subst ho
      subst hst
      exact ⟨rfl, rfl, rfl, rfl⟩
    · simp [finishFill] at h

lemma executeOrder_failure (cfg : BacktestConfig) (o : Order) (bar : Bar)
    (st : BacktestState) (o2 : Order) (st2 : BacktestState)
    (h : executeOrder cfg o bar st = some (false, o2, st2)) :
    st2.trades = st.trades := by
  cases hot : o.order_type with
  | market =>
    simp only [executeOrder, hot] at h
    exact (executeAt_failure cfg o bar bar.close st o2 st2 (Option.some.inj h)).2.2.1
  | limit =>
    simp only [executeOrder, hot] at h
    cases hlp : o.limit_price with
    | none => simp [hlp] at h
    | some lp =>
      simp only [hlp] at h
      split at h
      · simp only [Option.some.injEq, Prod.mk.injEq, true_and] at h
        rw [← h.2]
      · split at h
        · simp only [Option.some.injEq, Prod.mk.injEq, true_and] at h
          rw [← h.2]
        · exact (executeAt_failure cfg o bar lp st o2 st2 (Option.some.inj h)).2.2.1

/-- Whenever `executeAt` fills, the recorded fill price is the base price
adjusted by the side's slippage factor. -/
lemma executeAt_fst_fill_price (cfg : BacktestConfig) (o : Order) (bar : Bar)
    (base : ℚ) (st : BacktestState)
    (h : (executeAt cfg o bar base st).1 = true) :
    (executeAt cfg o bar base st).2.1.fill_price =
      some (base * slippageFactor cfg o.side) := by
  have heq : executeAt cfg o bar base st =
      (true, (executeAt cfg o bar base st).2.1,
       (executeAt cfg o bar base st).2.2) := by
    rw [← h]
  obtain ⟨fp, hfp, ho', -, -⟩ := executeAt_success cfg o bar base st _ _ heq
  rw [ho', hfp]

/-- The trade list a sell fill appends (engine.py lines 212-231), in
closed form. -/
lemma sellUpdate_snd (o : Order) (fp : ℚ) (ts : ℕ) (pos : Position) :
    (sellUpdate o fp ts pos).2 =
      if 0 < pos.quantity then
        [{ symbol := o.symbol,
           entry_time := pos.entry_time.getD ts,
           exit_time := ts,
           side := Side.buy,
           quantity := min o.quantity pos.quantity,
           entry_price := pos.avg_price,
           exit_price := fp,
           pnl := min o.quantity pos.quantity * (fp - pos.avg_price),
           return_pct :=
             if 0 < pos.avg_price then
               min o.quantity pos.quantity * (fp - pos.avg_price) /
                 (min o.quantity pos.quantity * pos.avg_price)
             else 0 }]
      else [] := by
  unfold sellUpdate
  by_cases h1 : 0 < pos.quantity <;> by_cases h2 : pos.quantity - o.quantity = 0 <;>
    simp [h1, h2]

lemma sellUpdate_snd_side (o : Order) (fp : ℚ) (ts : ℕ) (pos : Position) :
    ∀ t ∈ (sellUpdate o fp ts pos).2, t.side = Side.buy := by
  intro t ht
  rw [sellUpdate_snd] at ht
  split at ht
  · simp only [List.mem_singleton] at ht
    rw [ht]
  · simp at ht

lemma filter_not_isEmpty_eq_all {α : Type} (p : α → Bool) (l : List α) :
    (l.filter (fun a => !(p a))).isEmpty = l.all p := by
  induction l with
  | nil => rfl
  | cons a t ih =>
    cases hpa : p a <;> simp [List.filter_cons, hpa, ih]

/-- Cash telescopes over any sequence of successful fills. -/
lemma execAll_cash (cfg : BacktestConfig) :
    ∀ (obs : List (Order × Bar)) (st : BacktestState) (os : List Order)
      (st' : BacktestState),
      execAll cfg obs st = some (os, st') →
      st'.cash = st.cash + (os.map (fun q => cashDelta cfg q)).sum := by
  intro obs
  induction obs with
  | nil =>
    intro st os st' h
    simp only [execAll, Option.some.injEq, Prod.mk.injEq] at h
    rw [← h.1, ← h.2]
    simp
  | cons ob rest ih =>
    intro st os st' h
    obtain ⟨o, b⟩ := ob
    simp only [execAll] at h
    cases hexec : executeOrder cfg o b st with
    | none => rw [hexec] at h; simp at h
    | some r =>
      obtain ⟨flag, o1, st1⟩ := r
      rw [hexec] at h
      cases flag with
      | false => simp at h
      | true =>
        simp only at h
        cases hrest : execAll cfg rest st1 with
        | none => rw [hrest] at h; simp at h
        | some rr =>
          obtain ⟨os1, stf⟩ := rr
          rw [hrest] at h
          simp only [Option.map_some', Option.some.injEq, Prod.mk.injEq] at h
          obtain ⟨hos, hstf⟩ := h
          subst hstf
          rw [← hos]
          have hstep : st1.cash = st.cash + cashDelta cfg o1 := by
            obtain ⟨fp, ho1, hbuy, hsell⟩ := execSuccess cfg o b st o1 st1 hexec
            subst ho1
            cases hside : o.side with
            | buy =>
              rw [(hbuy hside).1]
              simp only [cashDelta, hside, if_true]
              ring
            | sell =>
              rw [(hsell hside).1]
              simp only [cashDelta, hside]
              rw [if_neg (by decide : ¬ (Side.sell = Side.buy))]
          rw [ih st1 os1 stf hrest, hstep]
          simp only [List.map_cons, List.sum_cons]
          ring

/-- Over a same-symbol all-buy sequence of successful fills, the position
quantity accumulates the order quantities and the cost basis accumulates
quantity × fill price. -/
lemma execAll_buy_invariant (cfg : BacktestConfig) (sym : String) :
    ∀ (obs : List (Order × Bar)) (st : BacktestState) (os : List Order)
      (st' : BacktestState),
      execAll cfg obs st = some (os, st') →
      (∀ ob ∈ obs, ob.1.side = Side.buy ∧ ob.1.symbol = sym ∧ 0 < ob.1.quantity) →
      0 ≤ (getPos st.positions sym).quantity →
      (getPos st'.positions sym).quantity =
          (getPos st.positions sym).quantity +
            (os.map (fun q => q.quantity)).sum ∧
        (getPos st'.positions sym).quantity * (getPos st'.positions sym).avg_price =
          (getPos st.positions sym).quantity * (getPos st.positions sym).avg_price +
            (os.map (fun q => q.quantity * q.fill_price.getD 0)).sum ∧
        os.map (fun q => q.quantity) = obs.map (fun ob => ob.1.quantity) := by
  intro obs
  induction obs with
  | nil =>
    intro st os st' h hall hnn
    simp only [execAll, Option.some.injEq, Prod.mk.injEq] at h
    rw [← h.1, ← h.2]
    simp
  | cons ob rest ih =>
    intro st os st' h hall hnn
    obtain ⟨o, b⟩ := ob
    obtain ⟨hside, hsym, hqty⟩ := hall (o, b) (List.mem_cons_self _ _)
    simp only at hside hsym hqty
    simp only [execAll] at h
    cases hexec : executeOrder cfg o b st with
    | none => rw [hexec] at h; simp at h
    | some r =>
      obtain ⟨flag, o1, st1⟩ := r
      rw [hexec] at h
      cases flag with
      | false => simp at h
      | true =>
        simp only at h
        cases hrest : execAll cfg rest st1 with
        | none => rw [hrest] at h; simp at h
        | some rr =>
          obtain ⟨os1, stf⟩ := rr
          rw [hrest] at h
          simp only [Option.map_some', Option.some.injEq, Prod.mk.injEq] at h
          obtain ⟨hos, hstf⟩ := h
          subst hstf
          obtain ⟨fp, ho1, hbuy, -⟩ := execSuccess cfg o b st o1 st1 hexec
          have hpos1 := (hbuy hside).2.2
          rw [hsym] at hpos1
          have hoq : o1.quantity = o.quantity := by rw [ho1]
          have hofp : o1.fill_price = some fp := by rw [ho1]
          have hq1 : (getPos st1.positions sym).quantity =
              (getPos st.positions sym).quantity + o.quantity := by
            rw [hpos1]
            simp [buyUpdate]
          have hqpos : (0:ℚ) < (getPos st.positions sym).quantity + o.quantity :=
            add_pos_of_nonneg_of_pos hnn hqty
          have hne : (getPos st.positions sym).quantity + o.quantity ≠ 0 :=
            ne_of_gt hqpos
          have hprod : (getPos st1.positions sym).quantity *
              (getPos st1.positions sym).avg_price =
              (getPos st.positions sym).quantity * (getPos st.positions sym).avg_price +
                o.quantity * fp := by
            rw [hpos1]
            simp only [buyUpdate, ne_eq, hne, not_false_eq_true, ite_true]
            rw [mul_comm, div_mul_cancel₀ _ hne]
          have hnn1 : (0:ℚ) ≤ (getPos st1.positions sym).quantity := by
            rw [hq1]
            exact le_of_lt hqpos
          obtain ⟨ihq, ihp, ihm⟩ := ih st1 os1 stf hrest
            (fun ob hob => hall ob (List.mem_cons_of_mem _ hob)) hnn1
          refine ⟨?_, ?_, ?_⟩
          · rw [← hos]
            simp only [List.map_cons, List.sum_cons, hoq]
            rw [ihq, hq1]
            ring
          · rw [← hos]
            simp only [List.map_cons, List.sum_cons, hoq, hofp, Option.getD_some]
            rw [ihp, hprod]
            ring
          · rw [← hos]
            simp only [List.map_cons, hoq]
            rw [ihm]

/-! ## Claim theorems -/

/-- Claim C1 (code-bug evidence).  The claim asserts that immediately
after the per-bar mark step every position — including zero-quantity
ones — satisfies `unrealized_pnl = quantity × (close − avg_price)`, so
that `get_equity() = cash + Σ quantity × close`.  In the run behind
`c1Final` (buy 10 at close 100, sell all 10 at close 110, then hold
through a final bar at close 110, zero commission and slippage) the
closed position keeps the stale `unrealized_pnl = 100` that was marked
before the sale, because `_update_positions` skips zero-quantity
positions and the sell branch never clears `unrealized_pnl`.  Bar 2
submits no orders, so `c1Final`'s positions are exactly the positions
right after bar 2's mark step: `unrealized_pnl = 100 ≠ 0 = quantity ×
(close − avg_price)`, and `get_equity` returns 100200 although cash +
Σ quantity × close = 100100. -/
theorem mark_step_stale_unrealized_pnl :
    (getPos c1Final.positions "A").quantity = 0 ∧
    (getPos c1Final.positions "A").avg_price = 0 ∧
    (getPos c1Final.positions "A").unrealized_pnl = 100 ∧
    (getPos c1Final.positions "A").unrealized_pnl ≠
      (getPos c1Final.positions "A").quantity *
        ((110 : ℚ) - (getPos c1Final.positions "A").avg_price) ∧
    getEquity c1Final = 100200 ∧
    c1Final.cash = 100100 ∧
    getEquity c1Final ≠
      c1Final.cash +
        (c1Final.positions.map (fun kv => kv.2.quantity * (110 : ℚ))).sum := by
  norm_num [c1Final, runEngine, runFrom, processBar, execLoop, executeOrder,
    executeAt, finishFill, buyUpdate, sellUpdate, updatePositions, getEquity,
    getPos, posLookup, ensurePos, hasPos, setPos, emptyPosition,
    slippageFactor, resetState, cfgZ, mkBar, mkOrder, c1Strat, min_def]

/-- Claim C2: a successful fill changes cash by exactly
−(transaction_value + commission) on a buy and +(transaction_value −
commission) on a sell, with transaction_value = quantity × fill_price
and commission = transaction_value × commission_rate; consequently cash
telescopes exactly over any sequence of successful fills. -/
theorem cash_update_exact :
    (∀ (cfg : BacktestConfig) (o : Order) (bar : Bar) (st : BacktestState)
        (o' : Order) (st' : BacktestState) (fp : ℚ),
        executeOrder cfg o bar st = some (true, o', st') →
        o'.fill_price = some fp →
        st'.cash = if o.side = Side.buy
          then st.cash - (o.quantity * fp + o.quantity * fp * cfg.commission)
          else st.cash + (o.quantity * fp - o.quantity * fp * cfg.commission)) ∧
    (∀ (cfg : BacktestConfig) (obs : List (Order × Bar)) (st : BacktestState)
        (os : List Order) (st' : BacktestState),
        execAll cfg obs st = some (os, st') →
        st'.cash = st.cash + (os.map (fun q => cashDelta cfg q)).sum) := by
  constructor
  · intro cfg o bar st o' st' fp h hfp
    obtain ⟨fp', ho', hbuy, hsell⟩ := execSuccess cfg o bar st o' st' h
    have hfp' : fp' = fp := by
      rw [ho'] at hfp
      exact Option.some.inj hfp
    subst hfp'
    cases hside : o.side with
    | buy =>
      rw [if_pos rfl]
      exact (hbuy hside).1
    | sell =>
      rw [if_neg (by decide : ¬ (Side.sell = Side.buy))]
      exact (hsell hside).1
  · intro cfg obs st os st' h
    exact execAll_cash cfg obs st os st' h

/-- Witness for C2: a concrete buy fill at price 100 from a fresh
100000-cash state, and a concrete buy-then-sell fill sequence, with the
theorem's hypotheses discharged by evaluation. -/
theorem cash_update_exact_witness :
    (executeOrder cfgZ (mkOrder Side.buy 10) (mkBar 0 100) (resetState cfgZ) =
      some (true, w2res.2.1, w2res.2.2)) ∧
    w2res.2.1.fill_price = some 100 ∧
    (w2res.2.2.cash = if (mkOrder Side.buy 10).side = Side.buy
      then (resetState cfgZ).cash -
        ((mkOrder Side.buy 10).quantity * 100 +
          (mkOrder Side.buy 10).quantity * 100 * cfgZ.commission)
      else (resetState cfgZ).cash +
        ((mkOrder Side.buy 10).quantity * 100 -
          (mkOrder Side.buy 10).quantity * 100 * cfgZ.commission)) ∧
    (execAll cfgZ w2seq (resetState cfgZ) = some (w2all.1, w2all.2)) ∧
    w2all.2.cash =
      (resetState cfgZ).cash + (w2all.1.map (fun q => cashDelta cfgZ q)).sum := by
  have h1 : executeOrder cfgZ (mkOrder Side.buy 10) (mkBar 0 100)
      (resetState cfgZ) = some (true, w2res.2.1, w2res.2.2) := by
    norm_num [w2res, executeOrder, executeAt, finishFill, buyUpdate,
      sellUpdate, getPos, posLookup, ensurePos, hasPos, setPos, emptyPosition,
      slippageFactor, resetState, cfgZ, mkBar, mkOrder, min_def]
  have h2 : w2res.2.1.fill_price = some 100 := by
    norm_num [w2res, executeOrder, executeAt, finishFill, buyUpdate,
      sellUpdate, getPos, posLookup, ensurePos, hasPos, setPos, emptyPosition,
      slippageFactor, resetState, cfgZ, mkBar, mkOrder, min_def]
  have h3 : execAll cfgZ w2seq (resetState cfgZ) = some (w2all.1, w2all.2) := by
    norm_num [w2all, w2seq, execAll, executeOrder, executeAt, finishFill,
      buyUpdate, sellUpdate, getPos, posLookup, ensurePos, hasPos, setPos,
      emptyPosition, slippageFactor, resetState, cfgZ, mkBar, mkOrder, min_def]
  exact ⟨h1, h2,
    cash_update_exact.1 cfgZ (mkOrder Side.buy 10) (mkBar 0 100)
      (resetState cfgZ) w2res.2.1 w2res.2.2 100 h1 h2,
    h3,
    cash_update_exact.2 cfgZ w2seq (resetState cfgZ) w2all.1 w2all.2 h3⟩

/-- Claim C3: a successful buy fill whose new quantity is nonzero sets
the average cost to the weighted mean
`(old_quantity × old_avg + order.quantity × fill_price) / new_quantity`;
consequently, after any sequence of successful positive-quantity buy
fills on one symbol starting from a flat (zero-quantity) position, the
average cost equals the quantity-weighted mean of the fill prices. -/
theorem avg_cost_weighted_mean :
    (∀ (cfg : BacktestConfig) (o : Order) (bar : Bar) (st : BacktestState)
        (o' : Order) (st' : BacktestState) (fp : ℚ),
        executeOrder cfg o bar st = some (true, o', st') →
        o.side = Side.buy →
        o'.fill_price = some fp →
        (getPos st.positions o.symbol).quantity + o.quantity ≠ 0 →
        (getPos st'.positions o.symbol).avg_price =
          ((getPos st.positions o.symbol).quantity *
              (getPos st.positions o.symbol).avg_price + o.quantity * fp) /
            ((getPos st.positions o.symbol).quantity + o.quantity)) ∧
    (∀ (cfg : BacktestConfig) (sym : String) (obs : List (Order × Bar))
        (st : BacktestState) (os : List Order) (st' : BacktestState),
        execAll cfg obs st = some (os, st') →
        (∀ ob ∈ obs, ob.1.side = Side.buy ∧ ob.1.symbol = sym ∧
          0 < ob.1.quantity) →
        (getPos st.positions sym).quantity = 0 →
        obs ≠ [] →
        (getPos st'.positions sym).avg_price =
          (os.map (fun q => q.quantity * q.fill_price.getD 0)).sum /
            (os.map (fun q => q.quantity)).sum) := by
  constructor
  · intro cfg o bar st o' st' fp h hside hfp hne
    obtain ⟨fp', ho', hbuy, -⟩ := execSuccess cfg o bar st o' st' h
    have hfp' : fp' = fp := by
      rw [ho'] at hfp
      exact Option.some.inj hfp
    subst hfp'
    rw [(hbuy hside).2.2]
    simp only [buyUpdate, ne_eq, hne, not_false_eq_true, ite_true]
  · intro cfg sym obs st os st' h hall h0 hobs
    obtain ⟨hq, hp, hm⟩ := execAll_buy_invariant cfg sym obs st os st' h hall
      (by rw [h0])
    have hpos : 0 < (os.map (fun q => q.quantity)).sum := by
      rw [hm]
      apply List.sum_pos
      · intro x hx
        simp only [List.mem_map] at hx
        obtain ⟨ob, hob, hxeq⟩ := hx
        rw [← hxeq]
        exact (hall ob hob).2.2
      · simp only [ne_eq, List.map_eq_nil_iff]
        exact hobs
    have hqty : (getPos st'.positions sym).quantity =
        (os.map (fun q => q.quantity)).sum := by
      rw [hq, h0, zero_add]
    rw [h0, zero_mul, zero_add] at hp
    rw [eq_div_iff (ne_of_gt hpos), ← hqty, mul_comm]
    exact hp

/-- Witness for C3: a concrete single buy fill (10 shares at 100 from a
flat fresh state) and a concrete two-buy sequence (10 at 100 then 30 at
110, weighted mean 107.5), with the theorem's hypotheses discharged by
evaluation. -/
theorem avg_cost_weighted_mean_witness :
    (executeOrder cfgZ (mkOrder Side.buy 10) (mkBar 0 100) (resetState cfgZ) =
      some (true, w3res.2.1, w3res.2.2)) ∧
    w3res.2.1.fill_price = some 100 ∧
    (getPos (resetState cfgZ).positions "A").quantity +
      (mkOrder Side.buy 10).quantity ≠ 0 ∧
    (getPos w3res.2.2.positions (mkOrder Side.buy 10).symbol).avg_price =
      ((getPos (resetState cfgZ).positions (mkOrder Side.buy 10).symbol).quantity *
          (getPos (resetState cfgZ).positions
            (mkOrder Side.buy 10).symbol).avg_price +
        (mkOrder Side.buy 10).quantity * 100) /
        ((getPos (resetState cfgZ).positions
            (mkOrder Side.buy 10).symbol).quantity +
          (mkOrder Side.buy 10).quantity) ∧
    (execAll cfgZ w3seq (resetState cfgZ) = some (w3all.1, w3all.2)) ∧
    (getPos w3all.2.positions "A").avg_price =
      (w3all.1.map (fun q => q.quantity * q.fill_price.getD 0)).sum /
        (w3all.1.map (fun q => q.quantity)).sum := by
  have h1 : executeOrder cfgZ (mkOrder Side.buy 10) (mkBar 0 100)
      (resetState cfgZ) = some (true, w3res.2.1, w3res.2.2) := by
    norm_num [w3res, executeOrder, executeAt, finishFill, buyUpdate,
      sellUpdate, getPos, posLookup, ensurePos, hasPos, setPos, emptyPosition,
      slippageFactor, resetState, cfgZ, mkBar, mkOrder, min_def]
  have h2 : w3res.2.1.fill_price = some 100 := by
    norm_num [w3res, executeOrder, executeAt, finishFill, buyUpdate,
      sellUpdate, getPos, posLookup, ensurePos, hasPos, setPos, emptyPosition,
      slippageFactor, resetState, cfgZ, mkBar, mkOrder, min_def]
  have h3 : (getPos (resetState cfgZ).positions "A").quantity +
      (mkOrder Side.buy 10).quantity ≠ 0 := by
    norm_num [getPos, posLookup, emptyPosition, resetState, cfgZ, mkOrder]
  have h4 : execAll cfgZ w3seq (resetState cfgZ) = some (w3all.1, w3all.2) := by
    norm_num [w3all, w3seq, execAll, executeOrder, executeAt, finishFill,
      buyUpdate, sellUpdate, getPos, posLookup, ensurePos, hasPos, setPos,
      emptyPosition, slippageFactor, resetState, cfgZ, mkBar, mkOrder, min_def]
  have h5 : ∀ ob ∈ w3seq, ob.1.side = Side.buy ∧ ob.1.symbol = "A" ∧
      0 < ob.1.quantity := by
    intro ob hob
    simp only [w3seq, List.mem_cons, List.not_mem_nil, or_false] at hob
    rcases hob with hob | hob <;> subst hob <;>
      exact ⟨rfl, rfl, by norm_num [mkOrder]⟩
  exact ⟨h1, h2, h3,
    avg_cost_weighted_mean.1 cfgZ (mkOrder Side.buy 10) (mkBar 0 100)
      (resetState cfgZ) w3res.2.1 w3res.2.2 100 h1 rfl h2 h3,
    h4,
    avg_cost_weighted_mean.2 cfgZ "A" w3seq (resetState cfgZ) w3all.1 w3all.2
      h4 h5 rfl (by simp [w3seq])⟩

/-- Claim C4 (code-bug evidence).  The claim asserts that in every
reachable ledger state a zero-quantity position has average cost 0 and a
cleared entry timestamp, including after buys that cover a short exactly
to zero.  Executing `s4Seq` from a fresh state (buy 5 at 100, sell 10 at
100, buy 5 at 60, all fills succeeding) ends with quantity 0 but
average cost 100 and entry timestamp still set: the buy branch of
`_execute_order` only rewrites `avg_price` when `new_quantity ≠ 0` and
only touches `entry_time` when `old_quantity == 0`, so a buy that covers
a short exactly to zero resets neither. -/
theorem zero_quantity_reset_violated :
    execAll cfgZ s4Seq (resetState cfgZ) = some (s4Run.1, s4Run.2) ∧
    (getPos s4Run.2.positions "A").quantity = 0 ∧
    (getPos s4Run.2.positions "A").avg_price = 100 ∧
    (getPos s4Run.2.positions "A").entry_time = some 0 := by
  norm_num [s4Run, s4Seq, execAll, executeOrder, executeAt, finishFill,
    buyUpdate, sellUpdate, getPos, posLookup, ensurePos, hasPos, setPos,
    emptyPosition, slippageFactor, resetState, cfgZ, mkBar, mkOrder, min_def]

/-- Claim C5 counterexample.  The claim states that a sell fill's trade
record carries `return_pct = pnl / (quantity × entry_price)` with 0
substituted only `when entry_price is 0`.  Executing `s5Seq` from a
fresh state reaches a long position with average cost −20 (short 5 at
avg 100 covered by buying 10 at 40), and selling it at 50 produces a
trade with `entry_price = −20 ≠ 0`, `pnl = 350`, but `return_pct = 0`,
because the code tests `old_avg > 0`, not `old_avg ≠ 0`; the claim's
formula would give −7/2. -/
theorem return_pct_negative_entry_counterexample :
    execAll cfgZ s5Seq (resetState cfgZ) = some (s5Run.1, s5Run.2) ∧
    s5Run.2.trades.get? 1 = some s5Trade ∧
    s5Trade.entry_price = -20 ∧
    s5Trade.pnl = 350 ∧
    s5Trade.quantity = 5 ∧
    s5Trade.return_pct = 0 ∧
    s5Trade.return_pct ≠ s5Trade.pnl / (s5Trade.quantity * s5Trade.entry_price) := by
  norm_num [s5Run, s5Seq, s5Trade, execAll, executeOrder, executeAt,
    finishFill, buyUpdate, sellUpdate, getPos, posLookup, ensurePos, hasPos,
    setPos, emptyPosition, slippageFactor, resetState, cfgZ, mkBar, mkOrder,
    min_def, List.get?]

/-- Claim C5 as amended: a successful sell fill appends exactly one
trade record iff the pre-fill quantity is strictly positive, with
quantity `min(order.quantity, old_quantity)`, P&L
`min(order.quantity, old_quantity) × (fill_price − old_avg)`, entry
price `old_avg`, exit price `fill_price`, and return percentage
`P&L / (closed_quantity × entry_price)` when `entry_price > 0` and 0
otherwise (0 is substituted for every non-positive entry price, not
only for entry price exactly 0). -/
theorem sell_trade_record_amended :
    ∀ (cfg : BacktestConfig) (o : Order) (bar : Bar) (st : BacktestState)
      (o' : Order) (st' : BacktestState) (fp : ℚ),
      executeOrder cfg o bar st = some (true, o', st') →
      o.side = Side.sell →
      o'.fill_price = some fp →
      (0 < (getPos st.positions o.symbol).quantity →
        st'.trades = st.trades ++
          [{ symbol := o.symbol,
             entry_time :=
               (getPos st.positions o.symbol).entry_time.getD bar.timestamp,
             exit_time := bar.timestamp,
             side := Side.buy,
             quantity := min o.quantity (getPos st.positions o.symbol).quantity,
             entry_price := (getPos st.positions o.symbol).avg_price,
             exit_price := fp,
             pnl := min o.quantity (getPos st.positions o.symbol).quantity *
               (fp - (getPos st.positions o.symbol).avg_price),
             return_pct :=
               if 0 < (getPos st.positions o.symbol).avg_price then
                 min o.quantity (getPos st.positions o.symbol).quantity *
                     (fp - (getPos st.positions o.symbol).avg_price) /
                   (min o.quantity (getPos st.positions o.symbol).quantity *
                     (getPos st.positions o.symbol).avg_price)
               else 0 }]) ∧
      (¬ 0 < (getPos st.positions o.symbol).quantity →
        st'.trades = st.trades) := by
  intro cfg o bar st o' st' fp h hside hfp
  obtain ⟨fp', ho', -, hsell⟩ := execSuccess cfg o bar st o' st' h
  have hfp' : fp' = fp := by
    rw [ho'] at hfp
    exact Option.some.inj hfp
  subst hfp'
  rw [(hsell hside).2.1, sellUpdate_snd]
  constructor
  · intro hq
    rw [if_pos hq]
  · intro hq
    rw [if_neg hq]
    simp

/-- Witness for C5 (amended): selling 4 of 10 shares held at average
cost 100 for 110 appends exactly the expected trade record
(quantity 4, entry 100, exit 110, pnl 40, return 10%). -/
theorem sell_trade_record_amended_witness :
    (executeOrder cfgZ (mkOrder Side.sell 4) (mkBar 1 110) w5pre =
      some (true, w5res.2.1, w5res.2.2)) ∧
    w5res.2.1.fill_price = some 110 ∧
    0 < (getPos w5pre.positions "A").quantity ∧
    w5res.2.2.trades = w5pre.trades ++
      [{ symbol := "A", entry_time := 0, exit_time := 1, side := Side.buy,
         quantity := 4, entry_price := 100, exit_price := 110, pnl := 40,
         return_pct := 1/10 }] := by
  have h1 : executeOrder cfgZ (mkOrder Side.sell 4) (mkBar 1 110) w5pre =
      some (true, w5res.2.1, w5res.2.2) := by
    norm_num [w5res, w5pre, executeOrder, executeAt, finishFill, buyUpdate,
      sellUpdate, getPos, posLookup, ensurePos, hasPos, setPos, emptyPosition,
      slippageFactor, resetState, cfgZ, mkBar, mkOrder, min_def]
  have h2 : w5res.2.1.fill_price = some 110 := by
    norm_num [w5res, w5pre, executeOrder, executeAt, finishFill, buyUpdate,
      sellUpdate, getPos, posLookup, ensurePos, hasPos, setPos, emptyPosition,
      slippageFactor, resetState, cfgZ, mkBar, mkOrder, min_def]
  have h3 : 0 < (getPos w5pre.positions "A").quantity := by
    norm_num [w5pre, executeOrder, executeAt, finishFill, buyUpdate,
      sellUpdate, getPos, posLookup, ensurePos, hasPos, setPos, emptyPosition,
      slippageFactor, resetState, cfgZ, mkBar, mkOrder, min_def]
  refine ⟨h1, h2, h3, ?_⟩
  have hc := (sell_trade_record_amended cfgZ (mkOrder Side.sell 4) (mkBar 1 110)
    w5pre w5res.2.1 w5res.2.2 110 h1 rfl h2).1 h3
  rw [hc]
  norm_num [w5pre, executeOrder, executeAt, finishFill, buyUpdate, sellUpdate,
    getPos, posLookup, ensurePos, hasPos, setPos, emptyPosition,
    slippageFactor, resetState, cfgZ, mkBar, mkOrder, min_def]

/-- Claim C6: for an equity curve with at least two points, the
`sharpe_ratio` produced by `from_equity_curve` equals
`mean(returns − riskFreeRate/periodsPerYear) × periodsPerYear` divided
by `volatility` whenever the volatility is nonzero, and equals 0
whenever the volatility is 0 (metrics.py lines 85 and 107-112). -/
theorem sharpe_from_equity_curve (eq : List ℝ) (rf : ℝ) (ppy : ℕ)
    (h2 : 2 ≤ eq.length) :
    (volatilityOf ppy eq = 0 → sharpeOf rf ppy eq = 0) ∧
    (volatilityOf ppy eq ≠ 0 →
      sharpeOf rf ppy eq =
        npMean ((returnsOf eq).map (fun r => r - rf / (ppy : ℝ))) * (ppy : ℝ) /
          volatilityOf ppy eq) := by
  have hlen : ¬ eq.length < 2 := not_lt.mpr h2
  constructor
  · intro hv
    simp [sharpeOf, hlen, hv]
  · intro hv
    have hnn : 0 ≤ volatilityOf ppy eq :=
      mul_nonneg (Real.sqrt_nonneg _) (Real.sqrt_nonneg _)
    have hpos : 0 < volatilityOf ppy eq := lt_of_le_of_ne hnn (Ne.symm hv)
    simp [sharpeOf, hlen, hpos]

/-- Witness for C6: the flat two-point curve `[100, 100]` has at least
two points; on it the theorem yields the zero-volatility clause. -/
theorem sharpe_from_equity_curve_witness :
    2 ≤ ([100, 100] : List ℝ).length ∧
    ((volatilityOf 252 [100, 100] = 0 → sharpeOf (1/50) 252 [100, 100] = 0) ∧
     (volatilityOf 252 [100, 100] ≠ 0 →
       sharpeOf (1/50) 252 [100, 100] =
         npMean ((returnsOf [100, 100]).map
             (fun r => r - (1/50) / ((252 : ℕ) : ℝ))) * ((252 : ℕ) : ℝ) /
           volatilityOf 252 [100, 100])) :=
  ⟨by norm_num, sharpe_from_equity_curve [100, 100] (1/50) 252 (by norm_num)⟩

/-- Claim C7 counterexample.  The claim asserts that a bar sequence
missing the `symbol` tag is rejected at load time; but `load_data` only
checks `timestamp, open, high, low, close, volume`, so a frame with
exactly those six columns — and no `symbol` — is accepted. -/
theorem load_data_missing_symbol_accepted :
    loadData ["timestamp", "open", "high", "low", "close", "volume"] =
      Except.ok () ∧
    ¬ "symbol" ∈ ["timestamp", "open", "high", "low", "close", "volume"] := by
  constructor
  · rfl
  · decide

/-- Claim C7 as amended: loading fails with a configuration error (and
nothing is processed) precisely when one of the six required columns
`timestamp, open, high, low, close, volume` is missing; the `symbol`
tag is not among the checked columns, so its absence alone never causes
a rejection. -/
theorem load_data_required_columns :
    (∀ cols : List String,
      loadOk cols = requiredCols.all (fun c => cols.contains c)) ∧
    requiredCols.contains "symbol" = false := by
  constructor
  · intro cols
    simp only [loadOk, loadData, filter_not_isEmpty_eq_all]
    cases h : requiredCols.all (fun c => cols.contains c) <;> simp [h]
  · decide

/-- Claim C8: a limit order uses the limit price as the base fill
price; it is rejected with no state change when a buy limit sits
strictly below the bar low or a sell limit strictly above the bar high,
and otherwise proceeds through the fill path with base price equal to
the limit price, so that any resulting fill is recorded at the limit
price adjusted by slippage. -/
theorem limit_order_fill_rule :
    ∀ (cfg : BacktestConfig) (o : Order) (bar : Bar) (st : BacktestState)
      (lp : ℚ),
      o.order_type = OrderType.limit →
      o.limit_price = some lp →
      (((o.side = Side.buy ∧ lp < bar.low) ∨
          (o.side = Side.sell ∧ bar.high < lp)) →
        executeOrder cfg o bar st = some (false, o, st)) ∧
      (¬ ((o.side = Side.buy ∧ lp < bar.low) ∨
          (o.side = Side.sell ∧ bar.high < lp)) →
        executeOrder cfg o bar st = some (executeAt cfg o bar lp st) ∧
        ((executeAt cfg o bar lp st).1 = true →
          (executeAt cfg o bar lp st).2.1.fill_price =
            some (lp * slippageFactor cfg o.side))) := by
  intro cfg o bar st lp ht hlp
  constructor
  · intro hrej
    simp only [executeOrder, ht, hlp]
    rcases hrej with ⟨hb, hlow⟩ | ⟨hs, hhigh⟩
    · rw [if_pos ⟨hb, hlow⟩]
    · rw [if_neg (show ¬ (o.side = Side.buy ∧ lp < bar.low) from
        fun hc => by rw [hs] at hc; exact absurd hc.1 (by decide)),
        if_pos ⟨hs, hhigh⟩]
  · intro hok
    obtain ⟨hnA, hnB⟩ := not_or.mp hok
    refine ⟨?_, executeAt_fst_fill_price cfg o bar lp st⟩
    simp only [executeOrder, ht, hlp]
    rw [if_neg hnA, if_neg hnB]

/-- Witness for C8: a concrete limit buy at 50 against a bar whose low
is 60 (so the limit is never touched), instantiating the theorem. -/
theorem limit_order_fill_rule_witness :
    w8o.order_type = OrderType.limit ∧
    w8o.limit_price = some 50 ∧
    ((((w8o.side = Side.buy ∧ 50 < w8bar.low) ∨
        (w8o.side = Side.sell ∧ w8bar.high < 50)) →
      executeOrder cfgZ w8o w8bar (resetState cfgZ) =
        some (false, w8o, resetState cfgZ)) ∧
     (¬ ((w8o.side = Side.buy ∧ 50 < w8bar.low) ∨
        (w8o.side = Side.sell ∧ w8bar.high < 50)) →
      executeOrder cfgZ w8o w8bar (resetState cfgZ) =
        some (executeAt cfgZ w8o w8bar 50 (resetState cfgZ)) ∧
      ((executeAt cfgZ w8o w8bar 50 (resetState cfgZ)).1 = true →
        (executeAt cfgZ w8o w8bar 50 (resetState cfgZ)).2.1.fill_price =
          some (50 * slippageFactor cfgZ w8o.side)))) :=
  ⟨rfl, rfl, limit_order_fill_rule cfgZ w8o w8bar (resetState cfgZ) 50 rfl rfl⟩

/-- Claim C9: `run()` resets cash to `initial_capital` and empties the
positions map, trade log, executed-order log and equity curve before
processing any bar, so the result is a function of the configuration,
data and (deterministic) strategy alone: two runs from arbitrary
pre-call engine states — in particular two consecutive runs — produce
identical results. -/
theorem run_resets_state_deterministic :
    ∀ (cfg : BacktestConfig) (strat : Strategy) (bars : List Bar)
      (st1 st2 : BacktestState),
      runEngine cfg strat bars st1 = runEngine cfg strat bars st2 ∧
      runEngine cfg strat bars st1 =
        runFrom cfg strat 0 bars (resetState cfg) ∧
      (resetState cfg).cash = cfg.initial_capital ∧
      (resetState cfg).positions = [] ∧
      (resetState cfg).orders = [] ∧
      (resetState cfg).trades = [] ∧
      (resetState cfg).equity_curve = [] :=
  fun _ _ _ _ _ => ⟨rfl, rfl, rfl, rfl, rfl, rfl, rfl⟩

/-- Every state reached by a sequence of order executions preserves
"all recorded trades have side BUY". -/
lemma execSeq_trades_buy (cfg : BacktestConfig) :
    ∀ (obs : List (Order × Bar)) (st st' : BacktestState),
      execSeq cfg obs st = some st' →
      (∀ t ∈ st.trades, t.side = Side.buy) →
      ∀ t ∈ st'.trades, t.side = Side.buy := by
  intro obs
  induction obs with
  | nil =>
    intro st st' h hbase
    simp only [execSeq, Option.some.injEq] at h
    rw [← h]
    exact hbase
  | cons ob rest ih =>
    intro st st' h hbase
    obtain ⟨o, b⟩ := ob
    simp only [execSeq] at h
    cases hexec : executeOrder cfg o b st with
    | none => rw [hexec] at h; simp at h
    | some r =>
      obtain ⟨flag, o2, st2⟩ := r
      rw [hexec] at h
      refine ih st2 st' h ?_
      intro t ht
      cases flag with
      | false =>
        rw [executeOrder_failure cfg o b st o2 st2 hexec] at ht
        exact hbase t ht
      | true =>
        obtain ⟨fp, -, hbuy, hsell⟩ := execSuccess cfg o b st o2 st2 hexec
        cases hside : o.side with
        | buy =>
          rw [(hbuy hside).2.1] at ht
          exact hbase t ht
        | sell =>
          rw [(hsell hside).2.1] at ht
          rcases List.mem_append.mp ht with h1 | h2
          · exact hbase t h1
          · exact sellUpdate_snd_side o fp b.timestamp _ t h2

/-- Claim C10: every trade record ever appended from a fresh run has
side BUY — the sell branch hard-codes `side=Side.BUY` in the only place
a `Trade` is constructed, so no reachable execution logs a SELL trade. -/
theorem trade_side_always_buy :
    ∀ (cfg : BacktestConfig) (obs : List (Order × Bar)),
      (((execSeq cfg obs (resetState cfg)).getD (resetState cfg)).trades).all
        (fun t => t.side == Side.buy) = true := by
  intro cfg obs
  cases h : execSeq cfg obs (resetState cfg) with
  | none => simp [resetState]
  | some st' =>
    simp only [Option.getD_some]
    rw [List.all_eq_true]
    intro t ht
    have hside := execSeq_trades_buy cfg obs (resetState cfg) st' h
      (by intro t' ht'; simp [resetState] at ht') t ht
    rw [hside]
    decide

end AlgoTrader
